import Mathlib

/-!
Verification of the text-to-record normalization engine of the fileadex-demo
repository (`src/app/api/process-card/route.ts`).

The engine is embedded shallowly over `List Char` / `String`:
* the three extraction regexes (email, phone, website) are embedded as
  explicit leftmost-match scanners whose backtracking order follows the
  JavaScript regex semantics of the concrete patterns in the source;
* the cleaners (`cleanEmail`, `cleanPhoneNumber`, `cleanWebsite`, `cleanName`,
  `cleanCompany`, `cleanJobTitle`), the heuristics (`isLikelyName`,
  `isLikelyCompany`, `isLikelyJobTitle`) and the engine
  (`cleanAndNormalizeData`) are translated line by line from the source.

Case mapping is modelled for the ASCII range (the engine's character classes
and keywords are all ASCII; the spec scopes the system to ASCII business-card
text).  JavaScript string `.length`/indexing is modelled by `List.length` over
`Char` (identical on characters of the Basic Multilingual Plane).
-/

namespace Fileadex

/-- The JavaScript `\s` character class (whitespace), by code point:
TAB, LF, VT, FF, CR, SP, NBSP, OGHAM SP, U+2000–U+200A, LS, PS, NNBSP,
MMSP, IDEOGRAPHIC SP, BOM. -/
def jsWhitespace (c : Char) : Bool :=
  c.toNat = 9 || c.toNat = 10 || c.toNat = 11 || c.toNat = 12 || c.toNat = 13 ||
  c.toNat = 32 || c.toNat = 160 || c.toNat = 5760 ||
  (8192 ≤ c.toNat && c.toNat ≤ 8202) ||
  c.toNat = 8232 || c.toNat = 8233 || c.toNat = 8239 || c.toNat = 8287 ||
  c.toNat = 12288 || c.toNat = 65279

/-- The regex class `[A-Z]`. -/
def isAsciiUpper (c : Char) : Bool := 65 ≤ c.toNat && c.toNat ≤ 90

/-- The regex class `[a-z]`. -/
def isAsciiLower (c : Char) : Bool := 97 ≤ c.toNat && c.toNat ≤ 122

/-- The regex class `[0-9]` (and `\d`; `\D` is its complement). -/
def isDigitChar (c : Char) : Bool := 48 ≤ c.toNat && c.toNat ≤ 57

/-- The regex class `[a-zA-Z]`. -/
def isAsciiLetter (c : Char) : Bool := isAsciiUpper c || isAsciiLower c

/-- JavaScript `toLowerCase`, modelled on the ASCII range. -/
def jsToLower (c : Char) : Char :=
  if 65 ≤ c.toNat ∧ c.toNat ≤ 90 then Char.ofNat (c.toNat + 32) else c

/-- Lowercasing of a character list (model of `String.prototype.toLowerCase`). -/
def lowerL (cs : List Char) : List Char := cs.map jsToLower

/-- The email regex local-part class `[a-zA-Z0-9._%+-]`. -/
def emailLocalChar (c : Char) : Bool :=
  isAsciiLetter c || isDigitChar c || c = '.' || c = '_' || c = '%' || c = '+' || c = '-'

/-- The domain class `[a-zA-Z0-9.-]` (shared by the email and website regexes;
the website regex carries the `i` flag, which is immaterial for this class). -/
def domainChar (c : Char) : Bool :=
  isAsciiLetter c || isDigitChar c || c = '.' || c = '-'

/-- The phone regex separator class `[\s\-\(\)]`. -/
def phoneSepChar (c : Char) : Bool :=
  jsWhitespace c || c = '-' || c = '(' || c = ')'

/-- The phone regex body class `[\s\-\(\)0-9]`. -/
def phoneBodyChar (c : Char) : Bool := phoneSepChar c || isDigitChar c

/-- Backtracking search for the regex tail `[a-zA-Z0-9.-]+\.[a-zA-Z]{2,}`
(shared by the email regex after `@` and the website regex after `www.`).
The `+` is tried greedily from the maximal class run downwards (the fuel
argument starts at that run's length; lengths beyond it are impossible since
`+` only consumes class characters); `[a-zA-Z]{2,}` is final, so its greedy
maximal run is taken.  Returns the total matched length of the tail. -/
def domainTailLen (ds : List Char) : Nat → Option Nat
  | 0 => none
  | j + 1 =>
    if (ds.drop (j + 1)).head? = some '.' then
      let t := ((ds.drop (j + 2)).takeWhile isAsciiLetter).length
      if 2 ≤ t then some ((j + 1) + 1 + t) else domainTailLen ds j
    else domainTailLen ds j

/-- Match of `/[a-zA-Z0-9._%+-]+@[a-zA-Z0-9.-]+\.[a-zA-Z]{2,}/` anchored at the
start of `cs`, returning the matched length.  The local-part `+` must end
exactly at the maximal class run, since the following literal `@` is not in
the class (so shorter backtracking candidates are impossible). -/
def emailMatchLen (cs : List Char) : Option Nat :=
  let l := (cs.takeWhile emailLocalChar).length
  if l = 0 then none
  else if (cs.drop l).head? = some '@' then
    match domainTailLen (cs.drop (l + 1))
        (((cs.drop (l + 1)).takeWhile domainChar).length) with
    | some d => some (l + 1 + d)
    | none => none
  else none

/-- Match of `/[\+]?[\s\-\(\)]*[0-9][\s\-\(\)0-9]{8,15}/` anchored at the start
of `cs`, returning the matched length.  The optional `+` is consumed when
present (if the remainder then fails, it also fails without the `+`, since
`[\s\-\(\)]*` cannot consume `+` and `[0-9]` rejects it); the separator `*`
must end exactly at the maximal run, since the following `[0-9]` is disjoint
from the separator class; `{8,15}` is final, so greediness takes
`min run 15`, requiring at least 8. -/
def phoneMatchLen (cs : List Char) : Option Nat :=
  let p : Nat := if cs.head? = some '+' then 1 else 0
  let cs1 := cs.drop p
  let s := (cs1.takeWhile phoneSepChar).length
  match (cs1.drop s).head? with
  | none => none
  | some c =>
    if isDigitChar c then
      let b := ((cs1.drop (s + 1)).takeWhile phoneBodyChar).length
      let r := min b 15
      if 8 ≤ r then some (p + s + 1 + r) else none
    else none

/-- The website regex top-level-domain allow-list, in source (alternation)
order. -/
def tlds : List (List Char) :=
  [['c', 'o', 'm'], ['n', 'e', 't'], ['o', 'r', 'g'], ['i', 'o'],
   ['c', 'o'], ['u', 'k'], ['c', 'a'], ['d', 'e']]

/-- Case-insensitive match of the first TLD alternative that is a prefix of
`ds`, in alternation order; returns its length. -/
def findTldLen (ds : List Char) : List (List Char) → Option Nat
  | [] => none
  | t :: ts =>
    if (ds.take t.length).map jsToLower = t then some t.length
    else findTldLen ds ts

/-- Backtracking search for the website bare-domain tail
`[a-zA-Z0-9.-]+\.(com|net|org|io|co|uk|ca|de)` at `ds`: the `+` takes `j + 1`
characters (tried greedily downwards from the maximal class run), then a
literal `.`, then the first matching TLD alternative. -/
def bareTailLen (ds : List Char) : Nat → Option Nat
  | 0 => none
  | j + 1 =>
    if (ds.drop (j + 1)).head? = some '.' then
      match findTldLen (ds.drop (j + 2)) tlds with
      | some t => some ((j + 1) + 1 + t)
      | none => bareTailLen ds j
    else bareTailLen ds j

/-- Match of
`/(www\.[a-zA-Z0-9.-]+\.[a-zA-Z]{2,}|[a-zA-Z0-9.-]+\.(com|net|org|io|co|uk|ca|de))/i`
anchored at the start of `cs`: the `www.` alternative is tried first (with all
its backtracking), then the bare-domain alternative, per regex alternation
order. -/
def websiteMatchLen (cs : List Char) : Option Nat :=
  let alt1 :=
    if (cs.take 4).map jsToLower = ['w', 'w', 'w', '.'] then
      match domainTailLen (cs.drop 4) (((cs.drop 4).takeWhile domainChar).length) with
      | some d => some (4 + d)
      | none => none
    else none
  match alt1 with
  | some n => some n
  | none => bareTailLen cs ((cs.takeWhile domainChar).length)

/-- Leftmost-match scan: JavaScript `String.prototype.match` tries the pattern
at every position from the left and returns the first match; `m[0]` is the
matched substring. -/
def scanFirst (f : List Char → Option Nat) : List Char → Option (List Char)
  | [] => match f [] with
    | some n => some (([] : List Char).take n)
    | none => none
  | c :: cs => match f (c :: cs) with
    | some n => some ((c :: cs).take n)
    | none => scanFirst f cs

/-- `text.split("\n")` (keeps empty segments, as in JavaScript). -/
def splitNL : List Char → List (List Char)
  | [] => [[]]
  | c :: cs =>
    if c = '\n' then [] :: splitNL cs
    else
      match splitNL cs with
      | [] => [[c]]
      | l :: ls => (c :: l) :: ls

/-- `String.prototype.trim` (strips `\s` from both ends). -/
def trimJS (cs : List Char) : List Char :=
  (((cs.dropWhile jsWhitespace).reverse).dropWhile jsWhitespace).reverse

/-- Accumulator pass for `replace(/\s+/g, " ")`: `prevWs` records whether the
previous character was part of a whitespace run already replaced. -/
def collapseAux : Bool → List Char → List Char
  | _, [] => []
  | prevWs, c :: cs =>
    if jsWhitespace c then
      if prevWs then collapseAux true cs else ' ' :: collapseAux true cs
    else c :: collapseAux false cs

/-- `replace(/\s+/g, " ")`: every maximal whitespace run becomes one space. -/
def collapseWs (cs : List Char) : List Char := collapseAux false cs

/-- Word accumulator for `split(/\s+/)` on trimmed text: splits into maximal
non-whitespace runs. -/
def wordsAux (cur : List Char) : List Char → List (List Char)
  | [] => if cur.isEmpty then [] else [cur.reverse]
  | c :: cs =>
    if jsWhitespace c then
      if cur.isEmpty then wordsAux [] cs else cur.reverse :: wordsAux [] cs
    else wordsAux (c :: cur) cs

/-- `text.trim().split(/\s+/)` as used by `isLikelyName` (on the empty string
JavaScript yields `[""]` and this model yields `[]`; both fail the word-count
lower bound of 2, so the heuristic agrees). -/
def wordsOf (cs : List Char) : List (List Char) := wordsAux [] (trimJS cs)

/-- The character substitution of `replace(/[0O]/g, "o")`. -/
def emailFix0 (c : Char) : Char := if c = '0' ∨ c = 'O' then 'o' else c

/-- The character substitution of `replace(/[1l]/g, "l")`. -/
def emailFix1 (c : Char) : Char := if c = '1' ∨ c = 'l' then 'l' else c

/-- The composite per-character transform of `cleanEmail` (lowercase, then
the two OCR-confusion substitutions). -/
def emailCharFix (c : Char) : Char := emailFix1 (emailFix0 (jsToLower c))

/-- `cleanEmail`: `toLowerCase`, then `replace(/[0O]/g, "o")`, then
`replace(/[1l]/g, "l")`, then `trim`. -/
def cleanEmailL (cs : List Char) : List Char :=
  trimJS (((cs.map jsToLower).map emailFix0).map emailFix1)

/-- The formatting stage of `cleanPhoneNumber`, applied to the digit string
`digits`: 10 digits → `+1-` and 3-3-4 grouping (`substring(0,3)`, `(3,6)`,
`(6)`); 11 digits starting with `1` (`digits.startsWith("1")`) → `+`,
digit 1, `-`, then digits 2–11 grouped 3-3-4 (`substring(0,1)`, `(1,4)`,
`(4,7)`, `(7)`); otherwise `+` and the digits verbatim. -/
def phoneFormat (digits : List Char) : List Char :=
  if digits.length = 10 then
    '+' :: '1' :: '-' ::
      (digits.take 3 ++ '-' :: ((digits.drop 3).take 3 ++ '-' :: digits.drop 6))
  else if digits.length = 11 ∧ digits.take 1 = ['1'] then
    '+' :: (digits.take 1 ++ '-' ::
      ((digits.drop 1).take 3 ++ '-' ::
        ((digits.drop 4).take 3 ++ '-' :: digits.drop 7)))
  else '+' :: digits

/-- `cleanPhoneNumber`: strip non-digits (`replace(/\D/g, "")`), then apply
the formatting branch to the remaining digits. -/
def cleanPhoneNumberL (cs : List Char) : List Char :=
  phoneFormat (cs.filter isDigitChar)

/-- `cleanWebsite`: `toLowerCase`, then `replace(/^www\./, "")` (strips one
leading `www.`). -/
def cleanWebsiteL (cs : List Char) : List Char :=
  let low := lowerL cs
  if ['w', 'w', 'w', '.'].isPrefixOf low then low.drop 4 else low

/-- The class kept by `cleanName`'s `replace(/[^a-zA-Z\s.-]/g, "")`. -/
def nameKeepChar (c : Char) : Bool :=
  isAsciiLetter c || jsWhitespace c || c = '.' || c = '-'

/-- `cleanName`: drop characters outside `[a-zA-Z\s.-]`, `trim`, collapse
whitespace runs to single spaces. -/
def cleanNameL (cs : List Char) : List Char :=
  collapseWs (trimJS (cs.filter nameKeepChar))

/-- `cleanCompany`: `trim`, collapse whitespace runs, `replace(/,$/, "")`
(remove one trailing comma). -/
def cleanCompanyL (cs : List Char) : List Char :=
  let t := collapseWs (trimJS cs)
  if t.getLast? = some ',' then t.dropLast else t

/-- `cleanJobTitle`: `trim`, collapse whitespace runs. -/
def cleanJobTitleL (cs : List Char) : List Char :=
  collapseWs (trimJS cs)

/-- The regex `/^[A-Z][a-z]+/` applied to one word: first character uppercase,
second lowercase (the `+` needs one lowercase letter; the pattern is not
end-anchored). -/
def wordTitleCase : List Char → Bool
  | c0 :: c1 :: _ => isAsciiUpper c0 && isAsciiLower c1
  | _ => false

/-- `isLikelyName`: 2–4 whitespace-separated words, each matching
`/^[A-Z][a-z]+/`. -/
def isLikelyName (cs : List Char) : Bool :=
  let nameWords := wordsOf cs
  decide (2 ≤ nameWords.length) && decide (nameWords.length ≤ 4) &&
    nameWords.all wordTitleCase

/-- `String.prototype.includes`: the needle occurs contiguously somewhere in
the haystack. -/
def containsSub (needle : List Char) : List Char → Bool
  | [] => needle.isEmpty
  | c :: cs => needle.isPrefixOf (c :: cs) || containsSub needle cs

/-- The `companyKeywords` list of the source. -/
def companyKeywords : List (List Char) :=
  ["Inc".data, "LLC".data, "Corp".data, "Company".data, "Ltd".data,
   "Group".data, "Solutions".data, "Services".data, "Technologies".data]

/-- A run of two or more consecutive uppercase letters (`/[A-Z]{2,}/.test`). -/
def hasUpperRun : List Char → Bool
  | a :: b :: rest => (isAsciiUpper a && isAsciiUpper b) || hasUpperRun (b :: rest)
  | _ => false

/-- `isLikelyCompany`: a case-insensitive keyword substring, or `&`, or a run
of two consecutive uppercase letters. -/
def isLikelyCompany (cs : List Char) : Bool :=
  companyKeywords.any (fun k => containsSub (lowerL k) (lowerL cs)) ||
  cs.contains '&' || hasUpperRun cs

/-- The `titleKeywords` list of the source. -/
def titleKeywords : List (List Char) :=
  ["CEO".data, "CTO".data, "CFO".data, "Manager".data, "Director".data,
   "President".data, "Vice".data, "Senior".data, "Lead".data, "Head".data,
   "Chief".data, "Officer".data, "Agent".data]

/-- `isLikelyJobTitle`: a case-insensitive keyword substring. -/
def isLikelyJobTitle (cs : List Char) : Bool :=
  titleKeywords.any (fun k => containsSub (lowerL k) (lowerL cs))

/-- The `LeadData` record produced by the engine (all fields optional). -/
structure LeadData where
  name : Option String := none
  email : Option String := none
  phone : Option String := none
  company : Option String := none
  job_title : Option String := none
  website : Option String := none
deriving Repr, DecidableEq

/-- The classifier's per-line guard: the line matches none of the three
extraction regexes and its raw length is strictly between 2 and 50. -/
def lineGuard (l : List Char) : Bool :=
  (scanFirst emailMatchLen l).isNone && (scanFirst phoneMatchLen l).isNone &&
  (scanFirst websiteMatchLen l).isNone &&
  decide (2 < l.length) && decide (l.length < 50)

/-- One iteration of the classification loop: under the guard, the first
applicable unfilled slot among name → company → job_title receives the
cleaned line. -/
def stepLine (r : LeadData) (l : List Char) : LeadData :=
  if lineGuard l then
    if r.name.isNone && isLikelyName l then
      { r with name := some (cleanNameL l).asString }
    else if r.company.isNone && isLikelyCompany l then
      { r with company := some (cleanCompanyL l).asString }
    else if r.job_title.isNone && isLikelyJobTitle l then
      { r with job_title := some (cleanJobTitleL l).asString }
    else r
  else r

/-- `text.split("\n").filter(line => line.trim().length > 0)`. -/
def classLines (text : List Char) : List (List Char) :=
  (splitNL text).filter (fun l => decide (0 < (trimJS l).length))

/-- The extraction phase of `cleanAndNormalizeData`: first match of each of
the email, phone and website regexes over the full text, cleaned into the
record (only these three fields are ever set here). -/
def extractFields (cs : List Char) : LeadData :=
  let r0 : LeadData := {}
  let r1 := match scanFirst emailMatchLen cs with
    | some m => { r0 with email := some (cleanEmailL m).asString }
    | none => r0
  let r2 := match scanFirst phoneMatchLen cs with
    | some m => { r1 with phone := some (cleanPhoneNumberL m).asString }
    | none => r1
  match scanFirst websiteMatchLen cs with
  | some m => { r2 with website := some (cleanWebsiteL m).asString }
  | none => r2

/-- The normalization engine `cleanAndNormalizeData`: first-match extraction
of email, phone and website over the full text, then the ordered
classification pass over the non-blank lines. -/
def cleanAndNormalizeData (text : String) : LeadData :=
  (classLines text.data).foldl stepLine (extractFields text.data)

/-- Classification state instrumented with the index and content of the
source line of each slot, for stating the sourcing and mutual-exclusion
invariants of the classification pass. -/
structure ClassIdx where
  nameI : Option (Nat × List Char) := none
  companyI : Option (Nat × List Char) := none
  jobI : Option (Nat × List Char) := none
deriving Repr, DecidableEq

/-- Instrumented `stepLine`: identical control flow, but each slot records
the `(index, line)` pair it was filled from instead of the cleaned value. -/
def stepIdx (q : ClassIdx) (i : Nat) (l : List Char) : ClassIdx :=
  if lineGuard l then
    if q.nameI.isNone && isLikelyName l then { q with nameI := some (i, l) }
    else if q.companyI.isNone && isLikelyCompany l then
      { q with companyI := some (i, l) }
    else if q.jobI.isNone && isLikelyJobTitle l then
      { q with jobI := some (i, l) }
    else q
  else q

/-- Instrumented classification pass, threading the absolute line index. -/
def classifyIdxAux : ClassIdx → Nat → List (List Char) → ClassIdx
  | q, _, [] => q
  | q, i, l :: ls => classifyIdxAux (stepIdx q i l) (i + 1) ls

/-- The instrumented classification of a text's non-blank lines. -/
def classifyIdx (text : String) : ClassIdx :=
  classifyIdxAux {} 0 (classLines text.data)

/-- Invariant of the instrumented classification state over the line list
`L`, after processing the first `n` lines: every filled slot records an
index below `n` of an actual line of `L` that passed the guard, and the
three slots record pairwise distinct indices. -/
def IdxInv (L : List (List Char)) (n : Nat) (q : ClassIdx) : Prop :=
  (∀ p, q.nameI = some p → p.1 < n ∧ L.get? p.1 = some p.2 ∧
    lineGuard p.2 = true) ∧
  (∀ p, q.companyI = some p → p.1 < n ∧ L.get? p.1 = some p.2 ∧
    lineGuard p.2 = true) ∧
  (∀ p, q.jobI = some p → p.1 < n ∧ L.get? p.1 = some p.2 ∧
    lineGuard p.2 = true) ∧
  (∀ p p2, q.nameI = some p → q.companyI = some p2 → p.1 ≠ p2.1) ∧
  (∀ p p2, q.nameI = some p → q.jobI = some p2 → p.1 ≠ p2.1) ∧
  (∀ p p2, q.companyI = some p → q.jobI = some p2 → p.1 ≠ p2.1)

/-- String-level `cleanEmail`. -/
def cleanEmail (s : String) : String := (cleanEmailL s.data).asString

/-- String-level `cleanPhoneNumber`. -/
def cleanPhoneNumber (s : String) : String := (cleanPhoneNumberL s.data).asString

/-- String-level `cleanWebsite`. -/
def cleanWebsite (s : String) : String := (cleanWebsiteL s.data).asString


/-! ### Character-level lemmas -/

theorem char_toNat_inj {c d : Char} (h : c.toNat = d.toNat) : c = d :=
  Char.eq_of_val_eq (UInt32.toNat.inj h)

theorem char_toNat_ofNat {n : Nat} (h : n < 55296) : (Char.ofNat n).toNat = n := by
  rw [Char.ofNat, dif_pos (Or.inl h)]
  rfl

theorem jsToLower_toNat (c : Char) :
    (jsToLower c).toNat =
      if 65 ≤ c.toNat ∧ c.toNat ≤ 90 then c.toNat + 32 else c.toNat := by
  unfold jsToLower
  by_cases h : 65 ≤ c.toNat ∧ c.toNat ≤ 90
  · rw [if_pos h, if_pos h, char_toNat_ofNat (by omega)]
  · rw [if_neg h, if_neg h]

theorem jsToLower_eq_self {c : Char} (h : ¬(65 ≤ c.toNat ∧ c.toNat ≤ 90)) :
    jsToLower c = c := by
  unfold jsToLower
  rw [if_neg h]

theorem jsToLower_idem (c : Char) : jsToLower (jsToLower c) = jsToLower c := by
  by_cases h : 65 ≤ c.toNat ∧ c.toNat ≤ 90
  · have hb : (jsToLower c).toNat = c.toNat + 32 := by
      rw [jsToLower_toNat, if_pos h]
    exact jsToLower_eq_self (by omega)
  · rw [jsToLower_eq_self h, jsToLower_eq_self h]

theorem jsWhitespace_false_of_between {c : Char} (h1 : 33 ≤ c.toNat)
    (h2 : c.toNat ≤ 126) : jsWhitespace c = false := by
  simp only [jsWhitespace, Bool.or_eq_false_iff, decide_eq_false_iff_not,
    Bool.and_eq_false_iff, Bool.not_eq_true]
  omega

theorem jsWhitespace_jsToLower (c : Char) :
    jsWhitespace (jsToLower c) = jsWhitespace c := by
  by_cases h : 65 ≤ c.toNat ∧ c.toNat ≤ 90
  · have hb : (jsToLower c).toNat = c.toNat + 32 := by
      rw [jsToLower_toNat, if_pos h]
    rw [jsWhitespace_false_of_between (c := jsToLower c) (by omega) (by omega),
      jsWhitespace_false_of_between (by omega) (by omega)]
  · rw [jsToLower_eq_self h]

theorem jsWhitespace_false_of_jsToLower_eq {c d : Char} (hd : jsToLower c = d)
    (h33 : 33 ≤ d.toNat) (h126 : d.toNat ≤ 126) : jsWhitespace c = false := by
  have h := congrArg Char.toNat hd
  rw [jsToLower_toNat] at h
  by_cases hu : 65 ≤ c.toNat ∧ c.toNat ≤ 90
  · exact jsWhitespace_false_of_between (by omega) (by omega)
  · rw [if_neg hu] at h
    exact jsWhitespace_false_of_between (by omega) (by omega)

theorem emailCharFix_idem (c : Char) :
    emailCharFix (emailCharFix c) = emailCharFix c := by
  unfold emailCharFix emailFix1 emailFix0
  by_cases h0 : jsToLower c = '0' ∨ jsToLower c = 'O'
  · rw [if_pos h0, if_neg (by decide : ¬('o' = '1' ∨ 'o' = 'l'))]
    decide
  · rw [if_neg h0]
    by_cases h1 : jsToLower c = '1' ∨ jsToLower c = 'l'
    · rw [if_pos h1]
      decide
    · rw [if_neg h1, jsToLower_idem, if_neg h0, if_neg h1]

theorem jsWhitespace_emailCharFix (c : Char) :
    jsWhitespace (emailCharFix c) = jsWhitespace c := by
  unfold emailCharFix emailFix1 emailFix0
  by_cases h0 : jsToLower c = '0' ∨ jsToLower c = 'O'
  · rw [if_pos h0, if_neg (by decide : ¬('o' = '1' ∨ 'o' = 'l'))]
    have hc : jsWhitespace c = false := by
      rcases h0 with h | h
      · exact jsWhitespace_false_of_jsToLower_eq h (by decide) (by decide)
      · exact jsWhitespace_false_of_jsToLower_eq h (by decide) (by decide)
    rw [hc]
    decide
  · rw [if_neg h0]
    by_cases h1 : jsToLower c = '1' ∨ jsToLower c = 'l'
    · rw [if_pos h1]
      have hc : jsWhitespace c = false := by
        rcases h1 with h | h
        · exact jsWhitespace_false_of_jsToLower_eq h (by decide) (by decide)
        · exact jsWhitespace_false_of_jsToLower_eq h (by decide) (by decide)
      rw [hc]
      decide
    · rw [if_neg h1]
      exact jsWhitespace_jsToLower c

/-! ### Trim lemmas -/

theorem dropWhile_dropWhile (p : Char → Bool) (l : List Char) :
    (l.dropWhile p).dropWhile p = l.dropWhile p := by
  induction l with
  | nil => rfl
  | cons a l ih =>
    by_cases h : p a
    · simp [List.dropWhile_cons, h, ih]
    · simp [List.dropWhile_cons, h]

theorem head_dropWhile_false (p : Char → Bool) (l : List Char) (c : Char)
    (h : (l.dropWhile p).head? = some c) : p c = false := by
  induction l with
  | nil => simp at h
  | cons a l ih =>
    by_cases ha : p a
    · rw [List.dropWhile_cons, if_pos ha] at h
      exact ih h
    · rw [List.dropWhile_cons, if_neg ha] at h
      simp at h
      rw [← h]
      exact Bool.not_eq_true _ ▸ ha

theorem dropWhile_eq_self_of_head (p : Char → Bool) (l : List Char)
    (h : ∀ c, l.head? = some c → p c = false) : l.dropWhile p = l := by
  cases l with
  | nil => rfl
  | cons a l =>
    rw [List.dropWhile_cons, if_neg]
    rw [h a rfl]
    simp

theorem trimJS_nil : trimJS [] = [] := rfl

theorem trimJS_idem (l : List Char) : trimJS (trimJS l) = trimJS l := by
  by_cases hB : ((l.dropWhile jsWhitespace).reverse.dropWhile jsWhitespace) = []
  · unfold trimJS
    rw [hB]
    rfl
  · unfold trimJS
    have step1 : (((l.dropWhile jsWhitespace).reverse.dropWhile
        jsWhitespace).reverse).dropWhile jsWhitespace =
        ((l.dropWhile jsWhitespace).reverse.dropWhile jsWhitespace).reverse := by
      apply dropWhile_eq_self_of_head
      intro c hc
      rw [List.head?_reverse] at hc
      obtain ⟨t, ht⟩ := List.dropWhile_suffix (l := (l.dropWhile jsWhitespace).reverse)
        (p := jsWhitespace)
      have hlast : ((l.dropWhile jsWhitespace).reverse).getLast? = some c := by
        rw [← ht, List.getLast?_append, hc]
        rfl
      rw [List.getLast?_reverse] at hlast
      exact head_dropWhile_false jsWhitespace l c hlast
    rw [step1, List.reverse_reverse, dropWhile_dropWhile]

theorem trimJS_map (f : Char → Char)
    (hf : ∀ c, jsWhitespace (f c) = jsWhitespace c) (l : List Char) :
    trimJS (l.map f) = (trimJS l).map f := by
  have hcomp : jsWhitespace ∘ f = jsWhitespace := funext hf
  unfold trimJS
  rw [List.dropWhile_map, hcomp, ← List.map_reverse, List.dropWhile_map, hcomp,
    ← List.map_reverse]

theorem cleanEmailL_eq (cs : List Char) :
    cleanEmailL cs = trimJS (cs.map emailCharFix) := by
  unfold cleanEmailL
  rw [List.map_map, List.map_map]
  rfl

theorem cleanEmailL_idem (l : List Char) :
    cleanEmailL (cleanEmailL l) = cleanEmailL l := by
  rw [cleanEmailL_eq, cleanEmailL_eq,
    trimJS_map emailCharFix jsWhitespace_emailCharFix, trimJS_idem,
    trimJS_map emailCharFix jsWhitespace_emailCharFix, List.map_map]
  refine List.map_congr_left ?_
  intro a _
  simp only [Function.comp_apply]
  exact emailCharFix_idem a

theorem lowerL_idem (l : List Char) : lowerL (lowerL l) = lowerL l := by
  unfold lowerL
  rw [List.map_map]
  exact List.map_congr_left (fun a _ => jsToLower_idem a)

theorem lowerL_cleanWebsiteL (cs : List Char) :
    lowerL (cleanWebsiteL cs) = cleanWebsiteL cs := by
  unfold cleanWebsiteL
  by_cases h : ['w', 'w', 'w', '.'].isPrefixOf (lowerL cs) = true
  · simp only [h, if_true]
    show lowerL ((lowerL cs).drop 4) = (lowerL cs).drop 4
    unfold lowerL
    rw [List.map_drop]
    show (lowerL (lowerL cs)).drop 4 = _
    rw [lowerL_idem]
    rfl
  · simp only [h, if_false, Bool.false_eq_true]
    exact lowerL_idem cs

theorem cleanWebsiteL_idem_of (cs : List Char)
    (h : ['w', 'w', 'w', '.'].isPrefixOf (cleanWebsiteL cs) = false) :
    cleanWebsiteL (cleanWebsiteL cs) = cleanWebsiteL cs := by
  show (if ['w', 'w', 'w', '.'].isPrefixOf (lowerL (cleanWebsiteL cs)) = true
      then (lowerL (cleanWebsiteL cs)).drop 4
      else lowerL (cleanWebsiteL cs)) = cleanWebsiteL cs
  rw [lowerL_cleanWebsiteL, if_neg (by simp [h])]

/-! ### Phone formatting lemmas -/

theorem filter_digits_all (cs : List Char) :
    ∀ c ∈ cs.filter isDigitChar, isDigitChar c = true :=
  fun _ hc => (List.mem_filter.mp hc).2

theorem filter_isDigit_take {d : List Char}
    (hd : ∀ c ∈ d, isDigitChar c = true) (n : Nat) :
    (d.take n).filter isDigitChar = d.take n :=
  List.filter_eq_self.mpr (fun a ha => hd a (List.take_subset n d ha))

theorem filter_isDigit_drop {d : List Char}
    (hd : ∀ c ∈ d, isDigitChar c = true) (n : Nat) :
    (d.drop n).filter isDigitChar = d.drop n :=
  List.filter_eq_self.mpr (fun a ha => hd a (List.drop_subset n d ha))

theorem filter_isDigit_self {d : List Char}
    (hd : ∀ c ∈ d, isDigitChar c = true) : d.filter isDigitChar = d :=
  List.filter_eq_self.mpr hd

theorem take_drop_assemble (d : List Char) (a b : Nat) :
    (d.drop a).take b ++ d.drop (a + b) = d.drop a := by
  have h := List.take_append_drop b (d.drop a)
  rw [List.drop_drop] at h
  exact h

theorem phoneFormat_filter {d : List Char}
    (hd : ∀ c ∈ d, isDigitChar c = true) :
    (phoneFormat d).filter isDigitChar =
      if d.length = 10 then '1' :: d else d := by
  have hdrop : ∀ n, ∀ c ∈ d.drop n, isDigitChar c = true :=
    fun n c hc => hd c (List.drop_subset n d hc)
  have hplus : isDigitChar '+' = false := by decide
  have hdash : isDigitChar '-' = false := by decide
  have hone : isDigitChar '1' = true := by decide
  unfold phoneFormat
  by_cases h10 : d.length = 10
  · rw [if_pos h10, if_pos h10]
    simp only [List.filter_cons, List.filter_append, hplus, hdash, hone,
      if_true, if_false, Bool.false_eq_true]
    rw [filter_isDigit_take hd, filter_isDigit_take (hdrop 3),
      filter_isDigit_drop hd]
    rw [show (6 : Nat) = 3 + 3 from rfl, take_drop_assemble,
      List.take_append_drop]
  · rw [if_neg h10, if_neg h10]
    by_cases h11 : d.length = 11 ∧ d.take 1 = ['1']
    · rw [if_pos h11]
      simp only [List.filter_cons, List.filter_append, hplus, hdash,
        if_true, if_false, Bool.false_eq_true]
      rw [filter_isDigit_take hd, filter_isDigit_take (hdrop 1),
        filter_isDigit_take (hdrop 4), filter_isDigit_drop hd]
      rw [show (7 : Nat) = 4 + 3 from rfl, take_drop_assemble,
        show (4 : Nat) = 1 + 3 from rfl, take_drop_assemble,
        List.take_append_drop]
    · rw [if_neg h11]
      simp only [List.filter_cons, hplus, if_false, Bool.false_eq_true]
      exact filter_isDigit_self hd

theorem cleanPhoneNumberL_idem (cs : List Char) :
    cleanPhoneNumberL (cleanPhoneNumberL cs) = cleanPhoneNumberL cs := by
  unfold cleanPhoneNumberL
  rw [phoneFormat_filter (filter_digits_all cs)]
  by_cases h10 : (cs.filter isDigitChar).length = 10
  · rw [if_pos h10]
    generalize hgen : cs.filter isDigitChar = d at h10
    unfold phoneFormat
    rw [if_neg (by simp [h10]), if_pos (by simp [h10, List.take_succ_cons]),
      if_pos h10]
    simp [List.take_succ_cons, List.drop_succ_cons]
  · rw [if_neg h10]

/-! ### Classification sourcing lemmas -/

theorem extractFields_name (cs : List Char) : (extractFields cs).name = none := by
  unfold extractFields
  cases scanFirst emailMatchLen cs <;> cases scanFirst phoneMatchLen cs <;>
    cases scanFirst websiteMatchLen cs <;> rfl

theorem extractFields_company (cs : List Char) :
    (extractFields cs).company = none := by
  unfold extractFields
  cases scanFirst emailMatchLen cs <;> cases scanFirst phoneMatchLen cs <;>
    cases scanFirst websiteMatchLen cs <;> rfl

theorem extractFields_job_title (cs : List Char) :
    (extractFields cs).job_title = none := by
  unfold extractFields
  cases scanFirst emailMatchLen cs <;> cases scanFirst phoneMatchLen cs <;>
    cases scanFirst websiteMatchLen cs <;> rfl

theorem stepLine_name_src (r : LeadData) (l : List Char) (v : String)
    (h : (stepLine r l).name = some v) :
    r.name = some v ∨
      (lineGuard l = true ∧ isLikelyName l = true ∧
        v = (cleanNameL l).asString) := by
  unfold stepLine at h
  split at h
  · split at h
    · right
      refine ⟨by assumption, ?_, ?_⟩
      · have hb : (r.name.isNone && isLikelyName l) = true := by assumption
        exact (Bool.and_eq_true _ _ |>.mp hb).2
      · simp at h
        exact h.symm
    · split at h
      · left
        simpa using h
      · split at h
        · left
          simpa using h
        · exact Or.inl h
  · exact Or.inl h

theorem stepLine_company_src (r : LeadData) (l : List Char) (v : String)
    (h : (stepLine r l).company = some v) :
    r.company = some v ∨
      (lineGuard l = true ∧ isLikelyCompany l = true ∧
        v = (cleanCompanyL l).asString) := by
  unfold stepLine at h
  split at h
  · split at h
    · left
      simpa using h
    · split at h
      · right
        refine ⟨by assumption, ?_, ?_⟩
        · have hb : (r.company.isNone && isLikelyCompany l) = true := by
            assumption
          exact (Bool.and_eq_true _ _ |>.mp hb).2
        · simp at h
          exact h.symm
      · split at h
        · left
          simpa using h
        · exact Or.inl h
  · exact Or.inl h

theorem stepLine_job_src (r : LeadData) (l : List Char) (v : String)
    (h : (stepLine r l).job_title = some v) :
    r.job_title = some v ∨
      (lineGuard l = true ∧ isLikelyJobTitle l = true ∧
        v = (cleanJobTitleL l).asString) := by
  unfold stepLine at h
  split at h
  · split at h
    · left
      simpa using h
    · split at h
      · left
        simpa using h
      · split at h
        · right
          refine ⟨by assumption, ?_, ?_⟩
          · have hb : (r.job_title.isNone && isLikelyJobTitle l) = true := by
              assumption
            exact (Bool.and_eq_true _ _ |>.mp hb).2
          · simp at h
            exact h.symm
        · exact Or.inl h
  · exact Or.inl h

theorem foldl_name_src (ls : List (List Char)) :
    ∀ (r : LeadData) (v : String), (ls.foldl stepLine r).name = some v →
      r.name = some v ∨ ∃ l ∈ ls, lineGuard l = true ∧ isLikelyName l = true ∧
        v = (cleanNameL l).asString := by
  induction ls with
  | nil => exact fun r v h => Or.inl h
  | cons l ls ih =>
    intro r v h
    rw [List.foldl_cons] at h
    rcases ih (stepLine r l) v h with h2 | ⟨l2, hl2, hp⟩
    · rcases stepLine_name_src r l v h2 with h3 | hp
      · exact Or.inl h3
      · exact Or.inr ⟨l, List.mem_cons_self l ls, hp⟩
    · exact Or.inr ⟨l2, List.mem_cons_of_mem l hl2, hp⟩

theorem foldl_company_src (ls : List (List Char)) :
    ∀ (r : LeadData) (v : String), (ls.foldl stepLine r).company = some v →
      r.company = some v ∨ ∃ l ∈ ls, lineGuard l = true ∧
        isLikelyCompany l = true ∧ v = (cleanCompanyL l).asString := by
  induction ls with
  | nil => exact fun r v h => Or.inl h
  | cons l ls ih =>
    intro r v h
    rw [List.foldl_cons] at h
    rcases ih (stepLine r l) v h with h2 | ⟨l2, hl2, hp⟩
    · rcases stepLine_company_src r l v h2 with h3 | hp
      · exact Or.inl h3
      · exact Or.inr ⟨l, List.mem_cons_self l ls, hp⟩
    · exact Or.inr ⟨l2, List.mem_cons_of_mem l hl2, hp⟩

theorem foldl_job_src (ls : List (List Char)) :
    ∀ (r : LeadData) (v : String), (ls.foldl stepLine r).job_title = some v →
      r.job_title = some v ∨ ∃ l ∈ ls, lineGuard l = true ∧
        isLikelyJobTitle l = true ∧ v = (cleanJobTitleL l).asString := by
  induction ls with
  | nil => exact fun r v h => Or.inl h
  | cons l ls ih =>
    intro r v h
    rw [List.foldl_cons] at h
    rcases ih (stepLine r l) v h with h2 | ⟨l2, hl2, hp⟩
    · rcases stepLine_job_src r l v h2 with h3 | hp
      · exact Or.inl h3
      · exact Or.inr ⟨l, List.mem_cons_self l ls, hp⟩
    · exact Or.inr ⟨l2, List.mem_cons_of_mem l hl2, hp⟩

theorem engine_name_src (text : String) (v : String)
    (h : (cleanAndNormalizeData text).name = some v) :
    ∃ l ∈ classLines text.data, lineGuard l = true ∧ isLikelyName l = true ∧
      v = (cleanNameL l).asString := by
  unfold cleanAndNormalizeData at h
  rcases foldl_name_src _ _ _ h with h2 | hex
  · rw [extractFields_name] at h2
    cases h2
  · exact hex

theorem engine_company_src (text : String) (v : String)
    (h : (cleanAndNormalizeData text).company = some v) :
    ∃ l ∈ classLines text.data, lineGuard l = true ∧
      isLikelyCompany l = true ∧ v = (cleanCompanyL l).asString := by
  unfold cleanAndNormalizeData at h
  rcases foldl_company_src _ _ _ h with h2 | hex
  · rw [extractFields_company] at h2
    cases h2
  · exact hex

theorem engine_job_src (text : String) (v : String)
    (h : (cleanAndNormalizeData text).job_title = some v) :
    ∃ l ∈ classLines text.data, lineGuard l = true ∧
      isLikelyJobTitle l = true ∧ v = (cleanJobTitleL l).asString := by
  unfold cleanAndNormalizeData at h
  rcases foldl_job_src _ _ _ h with h2 | hex
  · rw [extractFields_job_title] at h2
    cases h2
  · exact hex

theorem lineGuard_spec (l : List Char) (h : lineGuard l = true) :
    scanFirst emailMatchLen l = none ∧ scanFirst phoneMatchLen l = none ∧
      scanFirst websiteMatchLen l = none ∧ 2 < l.length ∧ l.length < 50 := by
  unfold lineGuard at h
  simp only [Bool.and_eq_true, Option.isNone_iff_eq_none,
    decide_eq_true_eq] at h
  exact ⟨h.1.1.1.1, h.1.1.1.2, h.1.1.2, h.1.2, h.2⟩

/-! ### Instrumented classification lemmas -/

theorem stepIdx_inv {L : List (List Char)} {n : Nat} {q : ClassIdx}
    {l : List Char} (hl : L.get? n = some l) (hq : IdxInv L n q) :
    IdxInv L (n + 1) (stepIdx q n l) := by
  obtain ⟨h1, h2, h3, h12, h13, h23⟩ := hq
  unfold stepIdx
  split
  · rename_i hg
    split
    · refine ⟨?_, ?_, ?_, ?_, ?_, ?_⟩
      · intro p hp
        have hp2 : some (n, l) = some p := hp
        cases hp2
        exact ⟨Nat.lt_succ_self n, hl, hg⟩
      · intro p hp
        obtain ⟨hb, hg2, hv⟩ := h2 p hp
        exact ⟨Nat.lt_succ_of_lt hb, hg2, hv⟩
      · intro p hp
        obtain ⟨hb, hg2, hv⟩ := h3 p hp
        exact ⟨Nat.lt_succ_of_lt hb, hg2, hv⟩
      · intro p p2 hp hp2
        have hp3 : some (n, l) = some p := hp
        cases hp3
        have := (h2 p2 hp2).1
        omega
      · intro p p2 hp hp2
        have hp3 : some (n, l) = some p := hp
        cases hp3
        have := (h3 p2 hp2).1
        omega
      · exact h23
    · split
      · refine ⟨?_, ?_, ?_, ?_, ?_, ?_⟩
        · intro p hp
          obtain ⟨hb, hg2, hv⟩ := h1 p hp
          exact ⟨Nat.lt_succ_of_lt hb, hg2, hv⟩
        · intro p hp
          have hp2 : some (n, l) = some p := hp
          cases hp2
          exact ⟨Nat.lt_succ_self n, hl, hg⟩
        · intro p hp
          obtain ⟨hb, hg2, hv⟩ := h3 p hp
          exact ⟨Nat.lt_succ_of_lt hb, hg2, hv⟩
        · intro p p2 hp hp2
          have hp3 : some (n, l) = some p2 := hp2
          cases hp3
          have := (h1 p hp).1
          omega
        · exact h13
        · intro p p2 hp hp2
          have hp3 : some (n, l) = some p := hp
          cases hp3
          have := (h3 p2 hp2).1
          omega
      · split
        · refine ⟨?_, ?_, ?_, ?_, ?_, ?_⟩
          · intro p hp
            obtain ⟨hb, hg2, hv⟩ := h1 p hp
            exact ⟨Nat.lt_succ_of_lt hb, hg2, hv⟩
          · intro p hp
            obtain ⟨hb, hg2, hv⟩ := h2 p hp
            exact ⟨Nat.lt_succ_of_lt hb, hg2, hv⟩
          · intro p hp
            have hp2 : some (n, l) = some p := hp
            cases hp2
            exact ⟨Nat.lt_succ_self n, hl, hg⟩
          · exact h12
          · intro p p2 hp hp2
            have hp3 : some (n, l) = some p2 := hp2
            cases hp3
            have := (h1 p hp).1
            omega
          · intro p p2 hp hp2
            have hp3 : some (n, l) = some p2 := hp2
            cases hp3
            have := (h2 p hp).1
            omega
        · refine ⟨?_, ?_, ?_, h12, h13, h23⟩
          · intro p hp
            obtain ⟨hb, hg2, hv⟩ := h1 p hp
            exact ⟨Nat.lt_succ_of_lt hb, hg2, hv⟩
          · intro p hp
            obtain ⟨hb, hg2, hv⟩ := h2 p hp
            exact ⟨Nat.lt_succ_of_lt hb, hg2, hv⟩
          · intro p hp
            obtain ⟨hb, hg2, hv⟩ := h3 p hp
            exact ⟨Nat.lt_succ_of_lt hb, hg2, hv⟩
  · refine ⟨?_, ?_, ?_, h12, h13, h23⟩
    · intro p hp
      obtain ⟨hb, hg2, hv⟩ := h1 p hp
      exact ⟨Nat.lt_succ_of_lt hb, hg2, hv⟩
    · intro p hp
      obtain ⟨hb, hg2, hv⟩ := h2 p hp
      exact ⟨Nat.lt_succ_of_lt hb, hg2, hv⟩
    · intro p hp
      obtain ⟨hb, hg2, hv⟩ := h3 p hp
      exact ⟨Nat.lt_succ_of_lt hb, hg2, hv⟩

theorem classifyIdxAux_inv (L : List (List Char)) (ls : List (List Char)) :
    ∀ (n : Nat) (q : ClassIdx),
      (∀ k, ls.get? k = L.get? (n + k)) → IdxInv L n q →
      IdxInv L (n + ls.length) (classifyIdxAux q n ls) := by
  induction ls with
  | nil =>
    intro n q _ hq
    simpa using hq
  | cons l ls ih =>
    intro n q hk hq
    have hl : L.get? n = some l := by
      have h0 := hk 0
      simpa using h0.symm
    have hk2 : ∀ k, ls.get? k = L.get? ((n + 1) + k) := by
      intro k
      have h1 := hk (k + 1)
      simpa [Nat.add_assoc, Nat.add_comm 1 k] using h1
    have hres := ih (n + 1) (stepIdx q n l) hk2 (stepIdx_inv hl hq)
    have harith : (n + 1) + ls.length = n + (l :: ls).length := by
      simp
      omega
    rw [harith] at hres
    exact hres

theorem classifyIdx_inv (text : String) :
    IdxInv (classLines text.data) (classLines text.data).length
      (classifyIdx text) := by
  have h := classifyIdxAux_inv (classLines text.data) (classLines text.data)
    0 {} (fun k => by simp) ?_
  · simpa using h
  · unfold IdxInv
    refine ⟨?_, ?_, ?_, ?_, ?_, ?_⟩
    · exact fun p hp => nomatch hp
    · exact fun p hp => nomatch hp
    · exact fun p hp => nomatch hp
    · exact fun p p2 hp hp2 => nomatch hp
    · exact fun p p2 hp hp2 => nomatch hp
    · exact fun p p2 hp hp2 => nomatch hp

theorem stepIdx_nameI_some {q : ClassIdx} {i : Nat} {l : List Char}
    {p : Nat × List Char} (h : q.nameI = some p) :
    (stepIdx q i l).nameI = some p := by
  unfold stepIdx
  split
  · split
    · rename_i hcond
      rw [h] at hcond
      simp at hcond
    · split
      · exact h
      · split
        · exact h
        · exact h
  · exact h

theorem stepIdx_companyI_some {q : ClassIdx} {i : Nat} {l : List Char}
    {p : Nat × List Char} (h : q.companyI = some p) :
    (stepIdx q i l).companyI = some p := by
  unfold stepIdx
  split
  · split
    · exact h
    · split
      · rename_i hcond
        rw [h] at hcond
        simp at hcond
      · split
        · exact h
        · exact h
  · exact h

theorem stepIdx_jobI_some {q : ClassIdx} {i : Nat} {l : List Char}
    {p : Nat × List Char} (h : q.jobI = some p) :
    (stepIdx q i l).jobI = some p := by
  unfold stepIdx
  split
  · split
    · exact h
    · split
      · exact h
      · split
        · rename_i hcond
          rw [h] at hcond
          simp at hcond
        · exact h
  · exact h

theorem classifyIdxAux_nameI_some (ls : List (List Char)) :
    ∀ (q : ClassIdx) (n : Nat) (p : Nat × List Char), q.nameI = some p →
      (classifyIdxAux q n ls).nameI = some p := by
  induction ls with
  | nil => exact fun q n p h => h
  | cons l ls ih =>
    intro q n p h
    exact ih (stepIdx q n l) (n + 1) p (stepIdx_nameI_some h)

theorem classifyIdxAux_companyI_some (ls : List (List Char)) :
    ∀ (q : ClassIdx) (n : Nat) (p : Nat × List Char), q.companyI = some p →
      (classifyIdxAux q n ls).companyI = some p := by
  induction ls with
  | nil => exact fun q n p h => h
  | cons l ls ih =>
    intro q n p h
    exact ih (stepIdx q n l) (n + 1) p (stepIdx_companyI_some h)

theorem classifyIdxAux_jobI_some (ls : List (List Char)) :
    ∀ (q : ClassIdx) (n : Nat) (p : Nat × List Char), q.jobI = some p →
      (classifyIdxAux q n ls).jobI = some p := by
  induction ls with
  | nil => exact fun q n p h => h
  | cons l ls ih =>
    intro q n p h
    exact ih (stepIdx q n l) (n + 1) p (stepIdx_jobI_some h)

theorem classifyIdxAux_append (ls1 ls2 : List (List Char)) :
    ∀ (q : ClassIdx) (n : Nat), classifyIdxAux q n (ls1 ++ ls2) =
      classifyIdxAux (classifyIdxAux q n ls1) (n + ls1.length) ls2 := by
  induction ls1 with
  | nil =>
    intro q n
    simp [classifyIdxAux]
  | cons l ls ih =>
    intro q n
    show classifyIdxAux (stepIdx q n l) (n + 1) (ls ++ ls2) = _
    rw [ih]
    have harith : (n + 1) + ls.length = n + (l :: ls).length := by
      simp
      omega
    rw [harith]
    rfl

theorem stepLine_rel (r : LeadData) (q : ClassIdx) (l : List Char) (i : Nat)
    (hn : r.name = q.nameI.map (fun p => (cleanNameL p.2).asString))
    (hc : r.company = q.companyI.map (fun p => (cleanCompanyL p.2).asString))
    (hj : r.job_title = q.jobI.map (fun p => (cleanJobTitleL p.2).asString)) :
    (stepLine r l).name =
      (stepIdx q i l).nameI.map (fun p => (cleanNameL p.2).asString) ∧
    (stepLine r l).company =
      (stepIdx q i l).companyI.map (fun p => (cleanCompanyL p.2).asString) ∧
    (stepLine r l).job_title =
      (stepIdx q i l).jobI.map (fun p => (cleanJobTitleL p.2).asString) := by
  have hn2 : r.name.isNone = q.nameI.isNone := by
    rw [hn]
    cases q.nameI <;> rfl
  have hc2 : r.company.isNone = q.companyI.isNone := by
    rw [hc]
    cases q.companyI <;> rfl
  have hj2 : r.job_title.isNone = q.jobI.isNone := by
    rw [hj]
    cases q.jobI <;> rfl
  unfold stepLine stepIdx
  by_cases hg : lineGuard l = true
  · rw [if_pos hg, if_pos hg]
    by_cases h1 : (q.nameI.isNone && isLikelyName l) = true
    · rw [if_pos h1, if_pos (by rw [hn2]; exact h1)]
      exact ⟨rfl, hc, hj⟩
    · rw [if_neg h1, if_neg (by rw [hn2]; exact h1)]
      by_cases h2 : (q.companyI.isNone && isLikelyCompany l) = true
      · rw [if_pos h2, if_pos (by rw [hc2]; exact h2)]
        exact ⟨hn, rfl, hj⟩
      · rw [if_neg h2, if_neg (by rw [hc2]; exact h2)]
        by_cases h3 : (q.jobI.isNone && isLikelyJobTitle l) = true
        · rw [if_pos h3, if_pos (by rw [hj2]; exact h3)]
          exact ⟨hn, hc, rfl⟩
        · rw [if_neg h3, if_neg (by rw [hj2]; exact h3)]
          exact ⟨hn, hc, hj⟩
  · rw [if_neg hg, if_neg hg]
    exact ⟨hn, hc, hj⟩

theorem classify_rel (ls : List (List Char)) :
    ∀ (r : LeadData) (q : ClassIdx) (n : Nat),
      r.name = q.nameI.map (fun p => (cleanNameL p.2).asString) →
      r.company = q.companyI.map (fun p => (cleanCompanyL p.2).asString) →
      r.job_title = q.jobI.map (fun p => (cleanJobTitleL p.2).asString) →
      (ls.foldl stepLine r).name =
        (classifyIdxAux q n ls).nameI.map
          (fun p => (cleanNameL p.2).asString) ∧
      (ls.foldl stepLine r).company =
        (classifyIdxAux q n ls).companyI.map
          (fun p => (cleanCompanyL p.2).asString) ∧
      (ls.foldl stepLine r).job_title =
        (classifyIdxAux q n ls).jobI.map
          (fun p => (cleanJobTitleL p.2).asString) := by
  induction ls with
  | nil => exact fun r q n hn hc hj => ⟨hn, hc, hj⟩
  | cons l ls ih =>
    intro r q n hn hc hj
    obtain ⟨hn2, hc2, hj2⟩ := stepLine_rel r q l n hn hc hj
    exact ih (stepLine r l) (stepIdx q n l) (n + 1) hn2 hc2 hj2

theorem engine_classifyIdx_rel (text : String) :
    (cleanAndNormalizeData text).name =
      (classifyIdx text).nameI.map (fun p => (cleanNameL p.2).asString) ∧
    (cleanAndNormalizeData text).company =
      (classifyIdx text).companyI.map
        (fun p => (cleanCompanyL p.2).asString) ∧
    (cleanAndNormalizeData text).job_title =
      (classifyIdx text).jobI.map (fun p => (cleanJobTitleL p.2).asString) := by
  unfold cleanAndNormalizeData classifyIdx
  exact classify_rel (classLines text.data) (extractFields text.data) {} 0
    (by rw [extractFields_name]; rfl)
    (by rw [extractFields_company]; rfl)
    (by rw [extractFields_job_title]; rfl)

/-! ### Claim theorems -/

/-- C1 counterexample: on the six-line scenario input, the engine does not
return the record claimed by the spec — the company field keeps the trailing
period of "Acme Technologies Inc." (`cleanCompany` strips only a trailing
comma), so the claimed record with company "Acme Technologies Inc" is wrong. -/
theorem C1_counterexample :
    cleanAndNormalizeData "John Smith\nSenior Engineer\nAcme Technologies Inc.\njohn.smith@acme.com\n(555) 123-4567\nwww.acme.com" ≠
      { name := some "John Smith", job_title := some "Senior Engineer",
        company := some "Acme Technologies Inc",
        email := some "john.smith@acme.com",
        phone := some "+1-555-123-4567", website := some "acme.com" } := by
  decide

/-- C1 (amended): on the six-line input "John Smith", "Senior Engineer",
"Acme Technologies Inc.", "john.smith@acme.com", "(555) 123-4567",
"www.acme.com", the engine returns exactly the record with
name "John Smith", job_title "Senior Engineer",
company "Acme Technologies Inc." (trailing period preserved),
email "john.smith@acme.com", phone "+1-555-123-4567",
website "acme.com". -/
theorem C1_scenario :
    cleanAndNormalizeData "John Smith\nSenior Engineer\nAcme Technologies Inc.\njohn.smith@acme.com\n(555) 123-4567\nwww.acme.com" =
      { name := some "John Smith", job_title := some "Senior Engineer",
        company := some "Acme Technologies Inc.",
        email := some "john.smith@acme.com",
        phone := some "+1-555-123-4567", website := some "acme.com" } := by
  decide

/-- C2 counterexample: on input "contact@biz.io" the output record is not
the claimed record whose only present field is the email — the website
regex also matches "biz.io" inside the email, so website is present too. -/
theorem C2_counterexample :
    cleanAndNormalizeData "contact@biz.io" ≠
      { email := some "contact@biz.io" } := by
  decide

/-- C2 (amended): on input "contact@biz.io" the engine returns the record
with email "contact@biz.io" and website "biz.io" (the website pattern also
matches the email's domain), and name, phone, company, job_title absent. -/
theorem C2_scenario :
    cleanAndNormalizeData "contact@biz.io" =
      { email := some "contact@biz.io", website := some "biz.io" } := by
  decide

/-- C3 counterexample: `cleanWebsite` is not idempotent — on
"www.www.acme.com" the first application strips one "www." and the second
strips another. -/
theorem C3_counterexample :
    cleanWebsite (cleanWebsite "www.www.acme.com") ≠
      cleanWebsite "www.www.acme.com" := by
  decide

/-- C3 (amended): `cleanEmail` and `cleanPhoneNumber` are idempotent on every
input; `cleanWebsite` is idempotent on every input whose normalized output
does not itself start with "www." (the counterexample forces exactly this
exception). -/
theorem C3_normalizers_idempotent (x : String) :
    cleanEmail (cleanEmail x) = cleanEmail x ∧
    cleanPhoneNumber (cleanPhoneNumber x) = cleanPhoneNumber x ∧
    (['w', 'w', 'w', '.'].isPrefixOf (cleanWebsite x).data = false →
      cleanWebsite (cleanWebsite x) = cleanWebsite x) := by
  refine ⟨?_, ?_, ?_⟩
  · show (cleanEmailL (cleanEmailL x.data)).asString =
      (cleanEmailL x.data).asString
    exact congrArg List.asString (cleanEmailL_idem x.data)
  · show (cleanPhoneNumberL (cleanPhoneNumberL x.data)).asString =
      (cleanPhoneNumberL x.data).asString
    exact congrArg List.asString (cleanPhoneNumberL_idem x.data)
  · intro h
    show (cleanWebsiteL (cleanWebsiteL x.data)).asString =
      (cleanWebsiteL x.data).asString
    exact congrArg List.asString (cleanWebsiteL_idem_of x.data h)

/-- C3 witness: the conditional part of the idempotence theorem applies at
the concrete input "acme.io", whose normalized form has no "www." prefix. -/
theorem C3_witness :
    ['w', 'w', 'w', '.'].isPrefixOf (cleanWebsite "acme.io").data = false ∧
    cleanWebsite (cleanWebsite "acme.io") = cleanWebsite "acme.io" :=
  ⟨by decide, (C3_normalizers_idempotent "acme.io").2.2 (by decide)⟩

/-- C7: `cleanPhoneNumber` first removes all non-digit characters; with
exactly 10 digits it returns "+1-" and the digits grouped 3-3-4; with
exactly 11 digits whose first digit is 1 it returns "+1-" and digits 2–11
grouped 3-3-4; otherwise "+" followed by all digits with no grouping.
In particular "15551234567" yields "+1-555-123-4567" and "442071234567"
yields "+442071234567". -/
theorem C7_cleanPhoneNumber_spec (x : String) :
    ((x.data.filter isDigitChar).length = 10 →
      cleanPhoneNumber x =
        ('+' :: '1' :: '-' :: ((x.data.filter isDigitChar).take 3 ++ '-' ::
          (((x.data.filter isDigitChar).drop 3).take 3 ++ '-' ::
            (x.data.filter isDigitChar).drop 6))).asString) ∧
    ((x.data.filter isDigitChar).length = 11 →
      (x.data.filter isDigitChar).head? = some '1' →
      cleanPhoneNumber x =
        ('+' :: '1' :: '-' :: (((x.data.filter isDigitChar).drop 1).take 3 ++
          '-' :: (((x.data.filter isDigitChar).drop 4).take 3 ++ '-' ::
            (x.data.filter isDigitChar).drop 7))).asString) ∧
    ((x.data.filter isDigitChar).length ≠ 10 →
      ¬((x.data.filter isDigitChar).length = 11 ∧
        (x.data.filter isDigitChar).take 1 = ['1']) →
      cleanPhoneNumber x = ('+' :: x.data.filter isDigitChar).asString) ∧
    cleanPhoneNumber "15551234567" = "+1-555-123-4567" ∧
    cleanPhoneNumber "442071234567" = "+442071234567" := by
  refine ⟨?_, ?_, ?_, by decide, by decide⟩
  · intro h10
    show (phoneFormat (x.data.filter isDigitChar)).asString = _
    unfold phoneFormat
    rw [if_pos h10]
  · intro h11 hhead
    show (phoneFormat (x.data.filter isDigitChar)).asString = _
    have htake : (x.data.filter isDigitChar).take 1 = ['1'] := by
      cases hd : x.data.filter isDigitChar with
      | nil => rw [hd] at h11; cases h11
      | cons a t =>
        rw [hd] at hhead
        simp at hhead
        rw [hhead]
        rfl
    unfold phoneFormat
    rw [if_neg (by omega), if_pos ⟨h11, htake⟩]
    cases hd : x.data.filter isDigitChar with
    | nil => rw [hd] at h11; cases h11
    | cons a t =>
      rw [hd] at hhead
      simp at hhead
      rw [hhead]
      rfl
  · intro h1 h2
    show (phoneFormat (x.data.filter isDigitChar)).asString = _
    unfold phoneFormat
    rw [if_neg h1, if_neg h2]

/-- C7 witness: the three formatting branches applied at concrete inputs —
"(555) 123-4567" (10 digits), "15551234567" (11 digits starting with 1),
and "442071234567" (12 digits, fallback). -/
theorem C7_witness :
    ("(555) 123-4567".data.filter isDigitChar).length = 10 ∧
    cleanPhoneNumber "(555) 123-4567" =
      ('+' :: '1' :: '-' :: (("(555) 123-4567".data.filter isDigitChar).take 3
        ++ '-' :: ((("(555) 123-4567".data.filter isDigitChar).drop 3).take 3
          ++ '-' :: ("(555) 123-4567".data.filter isDigitChar).drop 6))).asString ∧
    cleanPhoneNumber "15551234567" =
      ('+' :: '1' :: '-' :: (("15551234567".data.filter isDigitChar).drop 1).take 3
        ++ '-' :: ((("15551234567".data.filter isDigitChar).drop 4).take 3
          ++ '-' :: ("15551234567".data.filter isDigitChar).drop 7)).asString ∧
    cleanPhoneNumber "442071234567" =
      ('+' :: "442071234567".data.filter isDigitChar).asString :=
  ⟨by decide, (C7_cleanPhoneNumber_spec "(555) 123-4567").1 (by decide),
    (C7_cleanPhoneNumber_spec "15551234567").2.1 (by decide) (by decide),
    (C7_cleanPhoneNumber_spec "442071234567").2.2.1 (by decide) (by decide)⟩

/-- C8: the engine is a total function — for every input text (including
empty or all-blank text) it returns a record, possibly with all six fields
absent; in the shallow embedding it is defined without any failure channel,
so it never raises.  On "" and on whitespace-only text the result is the
all-absent record. -/
theorem C8_engine_total (text : String) :
    (∃ r : LeadData, cleanAndNormalizeData text = r) ∧
    cleanAndNormalizeData "" =
      { name := none, email := none, phone := none, company := none,
        job_title := none, website := none } ∧
    cleanAndNormalizeData " \n \t \n " =
      { name := none, email := none, phone := none, company := none,
        job_title := none, website := none } :=
  ⟨⟨cleanAndNormalizeData text, rfl⟩, by decide, by decide⟩

/-- C9: with the name and company slots both empty, the line "ACME CORP" is
classified as company, not name: the name test fails (no word is an
uppercase letter followed by a lowercase letter), while the company test
succeeds both through the keyword "Corp" (case-insensitive substring) and
through the run of two consecutive uppercase letters; consequently the
engine on the text "ACME CORP" fills only the company field. -/
theorem C9_acme_corp_is_company :
    isLikelyName "ACME CORP".data = false ∧
    (wordsOf "ACME CORP".data).all wordTitleCase = false ∧
    isLikelyCompany "ACME CORP".data = true ∧
    containsSub (lowerL "Corp".data) (lowerL "ACME CORP".data) = true ∧
    hasUpperRun "ACME CORP".data = true ∧
    (∀ em ph web jt : Option String,
      stepLine
        ({ name := none, email := em, phone := ph, company := none,
           job_title := jt, website := web } : LeadData)
        "ACME CORP".data =
        { name := none, email := em, phone := ph,
          company := some "ACME CORP", job_title := jt, website := web }) ∧
    cleanAndNormalizeData "ACME CORP" =
      { company := some "ACME CORP" } := by
  refine ⟨by decide, by decide, by decide, by decide, by decide, ?_, by decide⟩
  intro em ph web jt
  rfl

/-- C10: the phone pattern's separator class contains every `\s` whitespace
character, the newline included; on the two-line input "555-123" / "4567"
the first phone match spans the line break, and the extracted phone value
combines the digits of both lines into "+1-555-123-4567". -/
theorem C10_phone_match_spans_lines :
    (∀ c : Char, jsWhitespace c = true → phoneSepChar c = true) ∧
    jsWhitespace '\n' = true ∧
    scanFirst phoneMatchLen "555-123\n4567".data =
      some "555-123\n4567".data ∧
    '\n' ∈ "555-123\n4567".data ∧
    classLines "555-123\n4567".data = ["555-123".data, "4567".data] ∧
    (cleanAndNormalizeData "555-123\n4567").phone =
      some "+1-555-123-4567" ∧
    "555-123\n4567".data.filter isDigitChar =
      "555-123".data.filter isDigitChar ++
        "4567".data.filter isDigitChar := by
  refine ⟨?_, by decide, by decide, by decide, by decide, by decide, by decide⟩
  intro c h
  unfold phoneSepChar
  rw [h]
  rfl

/-- C10 witness: the separator-class inclusion applied at the newline. -/
theorem C10_witness :
    jsWhitespace '\n' = true ∧ phoneSepChar '\n' = true :=
  ⟨by decide, C10_phone_match_spans_lines.1 '\n' (by decide)⟩

/-- C4: any field among name, company and job_title present in the output is
sourced from a line of the text on which none of the email, phone and
website patterns match anywhere; hence a line containing a match of any of
the three patterns is never the source of name, company or job_title. -/
theorem C4_matched_lines_never_classified (text : String) (v : String) :
    ((cleanAndNormalizeData text).name = some v →
      ∃ l ∈ classLines text.data, scanFirst emailMatchLen l = none ∧
        scanFirst phoneMatchLen l = none ∧
        scanFirst websiteMatchLen l = none ∧ v = (cleanNameL l).asString) ∧
    ((cleanAndNormalizeData text).company = some v →
      ∃ l ∈ classLines text.data, scanFirst emailMatchLen l = none ∧
        scanFirst phoneMatchLen l = none ∧
        scanFirst websiteMatchLen l = none ∧
        v = (cleanCompanyL l).asString) ∧
    ((cleanAndNormalizeData text).job_title = some v →
      ∃ l ∈ classLines text.data, scanFirst emailMatchLen l = none ∧
        scanFirst phoneMatchLen l = none ∧
        scanFirst websiteMatchLen l = none ∧
        v = (cleanJobTitleL l).asString) := by
  refine ⟨?_, ?_, ?_⟩
  · intro h
    obtain ⟨l, hl, hg, _, hv⟩ := engine_name_src text v h
    obtain ⟨he, hp, hw, _, _⟩ := lineGuard_spec l hg
    exact ⟨l, hl, he, hp, hw, hv⟩
  · intro h
    obtain ⟨l, hl, hg, _, hv⟩ := engine_company_src text v h
    obtain ⟨he, hp, hw, _, _⟩ := lineGuard_spec l hg
    exact ⟨l, hl, he, hp, hw, hv⟩
  · intro h
    obtain ⟨l, hl, hg, _, hv⟩ := engine_job_src text v h
    obtain ⟨he, hp, hw, _, _⟩ := lineGuard_spec l hg
    exact ⟨l, hl, he, hp, hw, hv⟩

/-- C4 witness: on the three-line text "John Smith" / "Senior Engineer" /
"Acme Technologies Inc." all three classified fields are present, and the
theorem produces a pattern-free source line for each. -/
theorem C4_witness :
    (∃ l ∈ classLines "John Smith\nSenior Engineer\nAcme Technologies Inc.".data,
      scanFirst emailMatchLen l = none ∧ scanFirst phoneMatchLen l = none ∧
      scanFirst websiteMatchLen l = none ∧
      "John Smith" = (cleanNameL l).asString) ∧
    (∃ l ∈ classLines "John Smith\nSenior Engineer\nAcme Technologies Inc.".data,
      scanFirst emailMatchLen l = none ∧ scanFirst phoneMatchLen l = none ∧
      scanFirst websiteMatchLen l = none ∧
      "Acme Technologies Inc." = (cleanCompanyL l).asString) ∧
    (∃ l ∈ classLines "John Smith\nSenior Engineer\nAcme Technologies Inc.".data,
      scanFirst emailMatchLen l = none ∧ scanFirst phoneMatchLen l = none ∧
      scanFirst websiteMatchLen l = none ∧
      "Senior Engineer" = (cleanJobTitleL l).asString) :=
  ⟨(C4_matched_lines_never_classified
      "John Smith\nSenior Engineer\nAcme Technologies Inc."
      "John Smith").1 (by decide),
   (C4_matched_lines_never_classified
      "John Smith\nSenior Engineer\nAcme Technologies Inc."
      "Acme Technologies Inc.").2.1 (by decide),
   (C4_matched_lines_never_classified
      "John Smith\nSenior Engineer\nAcme Technologies Inc."
      "Senior Engineer").2.2 (by decide)⟩

/-- C6 counterexample: the trimmed-length precondition of the claim is
violated by the code — on the text " AB " the only line has trimmed length
2 (not strictly between 2 and 50), yet it is classified and fills the
company field, because the code tests the raw, untrimmed line length (4). -/
theorem C6_counterexample :
    (cleanAndNormalizeData " AB ").company = some "AB" ∧
    classLines " AB ".data = [" AB ".data] ∧
    (trimJS " AB ".data).length = 2 ∧ " AB ".data.length = 4 := by
  refine ⟨by decide, by decide, by decide, by decide⟩

/-- C6 (amended): a line is considered for name/company/job_title
classification only if its raw (untrimmed) length is strictly between 2 and
50 characters: every assigned field among the three is sourced from a line
of raw length within those bounds, so lines of raw length outside the range
contribute to no field. -/
theorem C6_length_bounds (text : String) (v : String) :
    ((cleanAndNormalizeData text).name = some v →
      ∃ l ∈ classLines text.data, 2 < l.length ∧ l.length < 50 ∧
        v = (cleanNameL l).asString) ∧
    ((cleanAndNormalizeData text).company = some v →
      ∃ l ∈ classLines text.data, 2 < l.length ∧ l.length < 50 ∧
        v = (cleanCompanyL l).asString) ∧
    ((cleanAndNormalizeData text).job_title = some v →
      ∃ l ∈ classLines text.data, 2 < l.length ∧ l.length < 50 ∧
        v = (cleanJobTitleL l).asString) := by
  refine ⟨?_, ?_, ?_⟩
  · intro h
    obtain ⟨l, hl, hg, _, hv⟩ := engine_name_src text v h
    obtain ⟨_, _, _, h2, h50⟩ := lineGuard_spec l hg
    exact ⟨l, hl, h2, h50, hv⟩
  · intro h
    obtain ⟨l, hl, hg, _, hv⟩ := engine_company_src text v h
    obtain ⟨_, _, _, h2, h50⟩ := lineGuard_spec l hg
    exact ⟨l, hl, h2, h50, hv⟩
  · intro h
    obtain ⟨l, hl, hg, _, hv⟩ := engine_job_src text v h
    obtain ⟨_, _, _, h2, h50⟩ := lineGuard_spec l hg
    exact ⟨l, hl, h2, h50, hv⟩

/-- C6 witness: the amended length-bounds theorem applied on the text
"ACME CORP" whose company field is assigned. -/
theorem C6_witness :
    ∃ l ∈ classLines "ACME CORP".data, 2 < l.length ∧ l.length < 50 ∧
      "ACME CORP" = (cleanCompanyL l).asString :=
  (C6_length_bounds "ACME CORP" "ACME CORP").2.1 (by decide)

/-- C5: the classification pass fills each of the name, company and
job_title slots at most once (each is one optional value, produced by the
instrumented classifier recording its unique source line), the three slots
are sourced from pairwise distinct lines of the text, and a slot once
filled after a prefix of the line list is never overwritten by later
lines. -/
theorem C5_slots_once_distinct_immutable (text : String) :
    ((cleanAndNormalizeData text).name =
      (classifyIdx text).nameI.map (fun p => (cleanNameL p.2).asString) ∧
     (cleanAndNormalizeData text).company =
      (classifyIdx text).companyI.map
        (fun p => (cleanCompanyL p.2).asString) ∧
     (cleanAndNormalizeData text).job_title =
      (classifyIdx text).jobI.map (fun p => (cleanJobTitleL p.2).asString)) ∧
    (∀ i l, (classifyIdx text).nameI = some (i, l) →
      (classLines text.data).get? i = some l) ∧
    (∀ i l, (classifyIdx text).companyI = some (i, l) →
      (classLines text.data).get? i = some l) ∧
    (∀ i l, (classifyIdx text).jobI = some (i, l) →
      (classLines text.data).get? i = some l) ∧
    (∀ i l j l2, (classifyIdx text).nameI = some (i, l) →
      (classifyIdx text).companyI = some (j, l2) → i ≠ j) ∧
    (∀ i l j l2, (classifyIdx text).nameI = some (i, l) →
      (classifyIdx text).jobI = some (j, l2) → i ≠ j) ∧
    (∀ i l j l2, (classifyIdx text).companyI = some (i, l) →
      (classifyIdx text).jobI = some (j, l2) → i ≠ j) ∧
    (∀ ls1 ls2, classLines text.data = ls1 ++ ls2 →
      (∀ p, (classifyIdxAux {} 0 ls1).nameI = some p →
        (classifyIdx text).nameI = some p) ∧
      (∀ p, (classifyIdxAux {} 0 ls1).companyI = some p →
        (classifyIdx text).companyI = some p) ∧
      (∀ p, (classifyIdxAux {} 0 ls1).jobI = some p →
        (classifyIdx text).jobI = some p)) := by
  obtain ⟨hn, hc, hj, h12, h13, h23⟩ := classifyIdx_inv text
  refine ⟨engine_classifyIdx_rel text, ?_, ?_, ?_, ?_, ?_, ?_, ?_⟩
  · exact fun i l h => (hn (i, l) h).2.1
  · exact fun i l h => (hc (i, l) h).2.1
  · exact fun i l h => (hj (i, l) h).2.1
  · exact fun i l j l2 h h2 => h12 (i, l) (j, l2) h h2
  · exact fun i l j l2 h h2 => h13 (i, l) (j, l2) h h2
  · exact fun i l j l2 h h2 => h23 (i, l) (j, l2) h h2
  · intro ls1 ls2 heq
    have hsplit : classifyIdx text =
        classifyIdxAux (classifyIdxAux {} 0 ls1) (0 + ls1.length) ls2 := by
      unfold classifyIdx
      rw [heq, classifyIdxAux_append]
    refine ⟨?_, ?_, ?_⟩
    · intro p hp
      rw [hsplit]
      exact classifyIdxAux_nameI_some ls2 _ _ p hp
    · intro p hp
      rw [hsplit]
      exact classifyIdxAux_companyI_some ls2 _ _ p hp
    · intro p hp
      rw [hsplit]
      exact classifyIdxAux_jobI_some ls2 _ _ p hp

/-- C5 witness: on the three-line text "John Smith" / "Senior Engineer" /
"Acme Technologies Inc.", name is sourced from line 0 and company from
line 2 (distinct lines), line 0 is really "John Smith", and the name slot
filled after the one-line prefix survives the remaining lines. -/
theorem C5_witness :
    (classLines "John Smith\nSenior Engineer\nAcme Technologies Inc.".data).get? 0 =
      some "John Smith".data ∧
    (0 : Nat) ≠ 2 ∧
    (classifyIdx "John Smith\nSenior Engineer\nAcme Technologies Inc.").nameI =
      some (0, "John Smith".data) := by
  have h := C5_slots_once_distinct_immutable
    "John Smith\nSenior Engineer\nAcme Technologies Inc."
  refine ⟨?_, ?_, ?_⟩
  · exact h.2.1 0 "John Smith".data (by decide)
  · exact h.2.2.2.2.1 0 "John Smith".data 2 "Acme Technologies Inc.".data
      (by decide) (by decide)
  · exact (h.2.2.2.2.2.2.2 ["John Smith".data]
      ["Senior Engineer".data, "Acme Technologies Inc.".data]
      (by decide)).1 (0, "John Smith".data) (by decide)
